import Mathlib

/-!
Verification of the `recognite` evaluation pipeline.

The development shallowly embeds the three source modules
(`src/metrics/accuracy.py`, `src/data/train_val_datasets.py`,
`src/utils/inference/score_matrix.py`) as executable Lean definitions:

* tensors of labels become `List Int`; score matrices and embedding
  batches become `List (List ℚ)` (row-major, each inner list a row);
* `torch` reductions (`any`, `sum`, division) become the corresponding
  list operations over `ℚ`, with the convention that `x / 0 = 0` stands
  in for the floating-point `NaN` produced by a `0 / 0` division;
* Python `assert` failures in `get_score_matrix` become the explicit
  error values of the specification's taxonomy (`InvalidModelState`,
  `ShapeMismatch`);
* parts of the repository that are only called from the embedded modules
  (`top_k`, the two split helpers, `DataFrameDataset`) are modelled from
  the specification text, as flagged in their doc comments.
-/

namespace Recognite

/-! ## Metrics: `src/metrics/accuracy.py` -/

/-- Embeds `top_all_accuracy(query_labels, top_all_labels)`:
`corr = torch.any(top_all_labels == query_labels[:, None], dim=1)` followed by
`torch.sum(corr) / len(query_labels)`.  The broadcast compares row `i` of
`top_all_labels` against `query_labels[i]` (broadcasting requires the first
dimensions to agree, which `List.zip` realises); the division is over `ℚ`
where `x / 0 = 0` stands in for the tensor `NaN` of `0 / 0`. -/
def top_all_accuracy (query_labels : List Int) (top_all_labels : List (List Int)) : ℚ :=
  let corr := (query_labels.zip top_all_labels).map (fun p => decide (p.1 ∈ p.2))
  ((corr.countP id : ℚ)) / ((query_labels.length : ℚ))

/-- Modelled from the spec: the function `top_k` imported from
`..utils.inference` is not among the given sources.  Per §4.5 it selects,
for each query row, the `k` gallery columns with the highest score, "ties
broken by stable column order", and returns the selected scores together
with the gathered gallery labels.  `rankBefore row i j` orders column
indices by descending score, ties resolved by the lower column index. -/
def rankBefore (row : List ℚ) (i j : Nat) : Bool :=
  decide (row.getD j 0 < row.getD i 0 ∨ (row.getD i 0 = row.getD j 0 ∧ i ≤ j))

/-- Insert an index into an already ranked list of indices, keeping rank order. -/
def rankInsert (le : Nat → Nat → Bool) (x : Nat) : List Nat → List Nat
  | [] => [x]
  | y :: ys => if le x y then x :: y :: ys else y :: rankInsert le x ys

/-- Insertion sort of column indices by a ranking relation. -/
def rankSort (le : Nat → Nat → Bool) : List Nat → List Nat
  | [] => []
  | x :: xs => rankInsert le x (rankSort le xs)

/-- The column indices of `row` ranked by descending score (stable). -/
def sortedIdx (row : List ℚ) : List Nat :=
  rankSort (rankBefore row) (List.range row.length)

/-- The indices of the `k` highest-scoring columns of `row`, stable ties. -/
def topKRow (row : List ℚ) (k : Nat) : List Nat :=
  (sortedIdx row).take k

/-- Modelled from the spec: `top_k(scores, gallery_labels, k)` returns, per
query row, the `k` highest scores and the labels of those gallery columns. -/
def top_k (scores : List (List ℚ)) (gallery_labels : List Int) (k : Nat) :
    List (List ℚ) × List (List Int) :=
  (scores.map (fun row => (topKRow row k).map (fun j => row.getD j 0)),
   scores.map (fun row => (topKRow row k).map (fun j => gallery_labels.getD j 0)))

/-- Embeds `top_k_accuracy(scores, query_labels, gallery_labels, k)`:
`_, top_k_labels = top_k(scores, gallery_labels, k)` then delegation to
`top_all_accuracy(query_labels, top_k_labels)`. -/
def top_k_accuracy (scores : List (List ℚ)) (query_labels : List Int)
    (gallery_labels : List Int) (k : Nat) : ℚ :=
  top_all_accuracy query_labels (top_k scores gallery_labels k).2

/-- Embeds `accuracy(scores, query_labels, gallery_labels)`, the top-1 case. -/
def accuracy (scores : List (List ℚ)) (query_labels : List Int)
    (gallery_labels : List Int) : ℚ :=
  top_k_accuracy scores query_labels gallery_labels 1

/-! ## Score matrix: `src/utils/inference/score_matrix.py` -/

/-- The model contract of §6: a callable taking a batch of images to a batch
of embedding rows, plus the stateful `training` flag read by the
`assert not model.training` precondition check.  The `.to(device)` moves of
the source are identities in this embedding (no devices). -/
structure Model (ι : Type) where
  training : Bool
  forward : List ι → List (List ℚ)

/-- The errors of the specification's taxonomy that `get_score_matrix` can
raise: the two `assert` statements of the source, named per spec §7. -/
inductive SMError where
  | invalidModelState
  | shapeMismatch
  deriving DecidableEq, Repr

/-- Execution events of `get_score_matrix`, recording the order in which the
two loops consume batches and the aggregation function is applied.  The
event list returned alongside the result mirrors the sequential execution
of the source. -/
inductive SMEvent (ι : Type) where
  | galBatch : List ι × List Int → SMEvent ι
  | aggApply : SMEvent ι
  | querBatch : List ι × List Int → SMEvent ι

/-- Embeds the embedding-extraction choice of the source: `model(imgs)` when
`get_embeddings_fn is None`, else `get_embeddings_fn(model, imgs)`. -/
def embedOf (model : Model ι) (get_embeddings_fn : Option (Model ι → List ι → List (List ℚ)))
    (imgs : List ι) : List (List ℚ) :=
  match get_embeddings_fn with
  | none => model.forward imgs
  | some f => f model imgs

/-- Dot product of two embedding rows, `torch`'s inner product. -/
def dotProd (a b : List ℚ) : ℚ := (List.zipWith (fun x y => x * y) a b).sum

/-- `torch.matmul(q_embs, gal_embeddings.T)`: entry `(i, j)` is the dot
product of query row `i` with gallery row `j`. -/
def matmulT (q g : List (List ℚ)) : List (List ℚ) :=
  q.map (fun qe => g.map (fun ge => dotProd qe ge))

/-- The gallery loop of `get_score_matrix` (lines 60–73): consume every
gallery batch in arrival order, embed it, check
`assert len(labels) == len(out)`, and accumulate the per-batch embedding
matrices and label vectors (concatenated by the caller, as `torch.cat`
does).  The event list records the batches consumed, including the batch
whose `assert` failed. -/
def galleryLoop (model : Model ι) (fn : Option (Model ι → List ι → List (List ℚ))) :
    List (List ι × List Int) →
    Except SMError (List (List (List ℚ)) × List (List Int)) × List (SMEvent ι)
  | [] => (Except.ok ([], []), [])
  | b :: rest =>
      let out := embedOf model fn b.1
      if b.2.length = out.length then
        let r := galleryLoop model fn rest
        (match r.1 with
         | Except.error e => Except.error e
         | Except.ok (es, ls) => Except.ok (out :: es, b.2 :: ls),
         SMEvent.galBatch b :: r.2)
      else (Except.error SMError.shapeMismatch, [SMEvent.galBatch b])

/-- The query loop of `get_score_matrix` (lines 78–88): consume every query
batch in arrival order, embed it (no `assert` here — the source checks
label/embedding counts only for gallery batches), multiply against the
(possibly aggregated) gallery, and accumulate the per-batch score blocks
and label vectors. -/
def queryLoop (model : Model ι) (fn : Option (Model ι → List ι → List (List ℚ)))
    (gal : List (List ℚ)) :
    List (List ι × List Int) →
    List (List (List ℚ)) × List (List Int) × List (SMEvent ι)
  | [] => ([], [], [])
  | b :: rest =>
      let q := embedOf model fn b.1
      let r := queryLoop model fn gal rest
      (matmulT q gal :: r.1, b.2 :: r.2.1, SMEvent.querBatch b :: r.2.2)

/-- Embeds `get_score_matrix(model, device, dl_gal, dl_quer, agg_gal_fn,
get_embeddings_fn)`.  Data loaders are the batch lists they yield; the
`device` argument and `tqdm` wrappers are dropped (identity in this
embedding).  Returns the source's `(scores, quer_labels, gal_labels)`
triple (or the error of the failing `assert`) together with the list of
execution events in the order the source performs them.  One deliberate
divergence: with zero batches in a loader the source's `torch.cat` raises a
`RuntimeError` on the empty list, whereas the `flatten` here returns the
empty matrix; statements about the empty-loader case therefore describe
the embedding, and counterexamples avoid it. -/
def get_score_matrix (model : Model ι)
    (dl_gal dl_quer : List (List ι × List Int))
    (agg_gal_fn : Option (List (List ℚ) → List Int → List (List ℚ) × List Int))
    (get_embeddings_fn : Option (Model ι → List ι → List (List ℚ))) :
    Except SMError (List (List ℚ) × List Int × List Int) × List (SMEvent ι) :=
  if model.training then (Except.error SMError.invalidModelState, [])
  else
    match galleryLoop model get_embeddings_fn dl_gal with
    | (Except.error e, evs) => (Except.error e, evs)
    | (Except.ok (galEmbBatches, galLblBatches), galEvs) =>
      let gal_embeddings := galEmbBatches.flatten
      let gal_labels := galLblBatches.flatten
      let agged :=
        match agg_gal_fn with
        | none => (gal_embeddings, gal_labels, ([] : List (SMEvent ι)))
        | some f =>
            let p := f gal_embeddings gal_labels
            (p.1, p.2, [SMEvent.aggApply])
      let q := queryLoop model get_embeddings_fn agged.1 dl_quer
      (Except.ok (q.1.flatten, q.2.1.flatten, agged.2.1),
       galEvs ++ agged.2.2 ++ q.2.2)

/-- The gallery pair actually used for scoring: the accumulated embeddings
and labels when `agg_gal_fn is None`, otherwise the aggregation's output. -/
def aggPair (agg : Option (List (List ℚ) → List Int → List (List ℚ) × List Int))
    (e : List (List ℚ)) (l : List Int) : List (List ℚ) × List Int :=
  match agg with
  | none => (e, l)
  | some f => f e l

/-- The aggregation events emitted by a run: one application when an
aggregation function is supplied, none otherwise. -/
def aggEvents (agg : Option (List (List ℚ) → List Int → List (List ℚ) × List Int)) :
    List (SMEvent ι) :=
  match agg with
  | none => []
  | some _ => [SMEvent.aggApply]

/-! ## Data splitting: `src/data/train_val_datasets.py` -/

variable {L A : Type} [DecidableEq L]

/-- First-occurrence deduplication, the order-preserving semantics of
`pandas.Series.unique()`.  `seen` accumulates the labels already emitted. -/
def pdUniqueAux (seen : List L) : List L → List L
  | [] => []
  | x :: xs => if x ∈ seen then pdUniqueAux seen xs else x :: pdUniqueAux (x :: seen) xs

/-- `df[label_key].unique()`: distinct values in order of first appearance. -/
def pdUnique (l : List L) : List L := pdUniqueAux [] l

/-- Python's `enumerate` with the pair swapped: the dict comprehension
`{label: idx for idx, label in enumerate(xs)}` as an association list. -/
def enumerateFrom (i : Nat) : List L → List (L × Nat)
  | [] => []
  | x :: xs => (x, i) :: enumerateFrom (i + 1) xs

/-- The `label_to_int` dict built in `get_train_val_datasets`:
`{label: label_idx for label_idx, label in enumerate(df[label_key].unique())}`. -/
def label_to_int_of (labels : List L) : List (L × Nat) :=
  enumerateFrom 0 (pdUnique labels)

/-- A record of the data frame: its label and its item (image path). -/
abbrev Record (L A : Type) := L × A

/-- The labels occurring in a record collection (the `LabelSet`, as a list;
membership gives the set). -/
def labelsOf (rs : List (Record L A)) : List L := rs.map Prod.fst

/-- The slice of fold `i` when a list of `n` shuffled labels is cut into
`num_folds` contiguous near-equal groups (`numpy.array_split` sizing: the
first `n % num_folds` folds get one extra label). -/
def foldSlice (l : List L) (num_folds i : Nat) : List L :=
  let q := l.length / num_folds
  let r := l.length % num_folds
  ((l.drop (i * q + min i r)).take (q + if i < r then 1 else 0))

/-- Modelled from the spec: `label_based_k_fold_trainval_split` is imported
from `..utils.data` and is not among the given sources.  Per §4.1 it
collects the distinct labels, deterministically shuffles them with `seed`
(the shuffle is the injectable pseudorandom source of §9, passed here as
the `shuffle` parameter), slices them contiguously into `num_folds`
near-equal groups, and returns the records whose label falls in fold
`val_fold` as the validation set and all others as the train set; it fails
(`InvalidFoldConfig`, rendered as `none`) when `num_folds < 2`, `val_fold`
is out of range, or there are fewer distinct labels than folds. -/
def label_based_k_fold_trainval_split (shuffle : Nat → List L → List L)
    (df : List (Record L A)) (num_folds val_fold seed : Nat) :
    Option (List (Record L A) × List (Record L A)) :=
  let labels := pdUnique (df.map Prod.fst)
  if num_folds < 2 ∨ num_folds ≤ val_fold ∨ labels.length < num_folds then none
  else
    let valLabels := foldSlice (shuffle seed labels) num_folds val_fold
    some (df.filter (fun r => decide (r.1 ∉ valLabels)),
          df.filter (fun r => decide (r.1 ∈ valLabels)))

/-- Modelled from the spec: `split_gallery_query` is imported from
`..utils.data` and is not among the given sources.  Per §4.2 it groups the
records by label and, per label, deterministically shuffles that label's
records with `seed` and takes the first `min(n_refs, count)` as gallery and
the rest as query. -/
def split_gallery_query (shuffle : Nat → List (Record L A) → List (Record L A))
    (df : List (Record L A)) (n_refs seed : Nat) :
    List (Record L A) × List (Record L A) :=
  let labels := pdUnique (df.map Prod.fst)
  ((labels.map (fun l =>
      (shuffle seed (df.filter (fun r => decide (r.1 = l)))).take n_refs)).flatten,
   (labels.map (fun l =>
      (shuffle seed (df.filter (fun r => decide (r.1 = l)))).drop n_refs)).flatten)

/-- Modelled from the spec: `DataFrameDataset` (§4.3, `LabeledDatasetView`)
is constructed from a data frame, a `label_to_int` mapping and an optional
transform; only those constructor arguments matter here. -/
structure DataFrameDataset (L A : Type) where
  df : List (Record L A)
  label_to_int : List (L × Nat)
  transform : Option (A → A)

/-- Embeds `get_train_val_datasets` (CSV loading dropped: `df` is the loaded
frame).  Splits `df` into train/validation by labels, splits validation
into gallery/query, and builds the three datasets: the train dataset with a
`label_to_int` enumerating the distinct train labels, and the gallery and
query datasets sharing the single `label_to_int_val` enumerating the
distinct labels of `df_val`. -/
def get_train_val_datasets (kShuffle : Nat → List L → List L)
    (refShuffle : Nat → List (Record L A) → List (Record L A))
    (df : List (Record L A)) (num_folds val_fold k_fold_seed n_refs rand_ref_seed : Nat)
    (tfm_train tfm_val : Option (A → A)) :
    Option (DataFrameDataset L A × DataFrameDataset L A × DataFrameDataset L A) :=
  match label_based_k_fold_trainval_split kShuffle df num_folds val_fold k_fold_seed with
  | none => none
  | some (df_train, df_val) =>
    let p := split_gallery_query refShuffle df_val n_refs rand_ref_seed
    let label_to_int_val := label_to_int_of (df_val.map Prod.fst)
    some ({ df := df_train, label_to_int := label_to_int_of (df_train.map Prod.fst),
            transform := tfm_train },
          { df := p.1, label_to_int := label_to_int_val, transform := tfm_val },
          { df := p.2, label_to_int := label_to_int_val, transform := tfm_val })

/-! ## Theorems -/

theorem queryLoop_eq (model : Model ι) (fn : Option (Model ι → List ι → List (List ℚ)))
    (gal : List (List ℚ)) (quer : List (List ι × List Int)) :
    queryLoop model fn gal quer =
      (quer.map (fun b => matmulT (embedOf model fn b.1) gal),
       quer.map Prod.snd, quer.map (fun b => SMEvent.querBatch b)) := by
  induction quer with
  | nil => rfl
  | cons b rest ih => simp [queryLoop, ih]

theorem galleryLoop_ok (model : Model ι) (fn : Option (Model ι → List ι → List (List ℚ))) :
    ∀ gal : List (List ι × List Int),
      (∀ b ∈ gal, (embedOf model fn b.1).length = b.2.length) →
      galleryLoop model fn gal =
        (Except.ok (gal.map (fun b => embedOf model fn b.1), gal.map Prod.snd),
         gal.map (fun b => SMEvent.galBatch b))
  | [], _ => rfl
  | b :: rest, h => by
      have hb : b.2.length = (embedOf model fn b.1).length := (h b (by simp)).symm
      have ih := galleryLoop_ok model fn rest (fun x hx => h x (by simp [hx]))
      simp [galleryLoop, hb, ih]

theorem galleryLoop_error_iff (model : Model ι)
    (fn : Option (Model ι → List ι → List (List ℚ))) (e : SMError) :
    ∀ gal : List (List ι × List Int),
      (galleryLoop model fn gal).1 = Except.error e ↔
        (e = SMError.shapeMismatch ∧
          ∃ b ∈ gal, (embedOf model fn b.1).length ≠ b.2.length)
  | [] => by simp [galleryLoop]
  | b :: rest => by
      have ih := galleryLoop_error_iff model fn e rest
      by_cases hb : b.2.length = (embedOf model fn b.1).length
      · have hb' : ¬(embedOf model fn b.1).length ≠ b.2.length := by simp [hb]
        cases hgl : (galleryLoop model fn rest).1 with
        | error e2 =>
            simp only [galleryLoop, if_pos hb, hgl] at ih ⊢
            simpa [hb'] using ih
        | ok p =>
            simp only [galleryLoop, if_pos hb, hgl] at ih ⊢
            simpa [hb'] using ih
      · have hb' : (embedOf model fn b.1).length ≠ b.2.length := fun h => hb h.symm
        simp only [galleryLoop, if_neg hb]
        constructor
        · intro h
          have he : SMError.shapeMismatch = e := by
            simpa using h
          exact ⟨he.symm, b, by simp, hb'⟩
        · intro h
          simp [h.1]

/-- Success-case characterisation of `get_score_matrix`: when the model is
in inference mode and every gallery batch passes its `assert`, the run
returns the concatenated per-query-batch score blocks against the
(possibly aggregated) gallery, the concatenated query labels, and the
(possibly aggregated) gallery labels, with the event trace consisting of
the gallery batches in arrival order, then the single optional aggregation
application, then the query batches in arrival order. -/
theorem gsm_ok (model : Model ι) (dl_gal dl_quer : List (List ι × List Int))
    (agg : Option (List (List ℚ) → List Int → List (List ℚ) × List Int))
    (fn : Option (Model ι → List ι → List (List ℚ)))
    (hT : model.training = false)
    (hG : ∀ b ∈ dl_gal, (embedOf model fn b.1).length = b.2.length) :
    get_score_matrix model dl_gal dl_quer agg fn =
      (Except.ok
        ((dl_quer.map (fun b => matmulT (embedOf model fn b.1)
            (aggPair agg ((dl_gal.map (fun b => embedOf model fn b.1)).flatten)
              ((dl_gal.map Prod.snd).flatten)).1)).flatten,
         (dl_quer.map Prod.snd).flatten,
         (aggPair agg ((dl_gal.map (fun b => embedOf model fn b.1)).flatten)
            ((dl_gal.map Prod.snd).flatten)).2),
       dl_gal.map (fun b => SMEvent.galBatch b) ++ aggEvents agg
         ++ dl_quer.map (fun b => SMEvent.querBatch b)) := by
  unfold get_score_matrix
  rw [galleryLoop_ok model fn dl_gal hG]
  cases agg with
  | none => simp [hT, aggPair, aggEvents, queryLoop_eq]
  | some f => simp [hT, aggPair, aggEvents, queryLoop_eq]

theorem flatten_matmulT {ι : Type} (model : Model ι)
    (fn : Option (Model ι → List ι → List (List ℚ)))
    (gal : List (List ℚ)) (quer : List (List ι × List Int)) :
    (quer.map (fun b => matmulT (embedOf model fn b.1) gal)).flatten =
      ((quer.map (fun b => embedOf model fn b.1)).flatten).map
        (fun q => gal.map (fun g => dotProd q g)) := by
  induction quer with
  | nil => rfl
  | cons b rest ih =>
      rw [List.map_cons, List.flatten_cons, List.map_cons, List.flatten_cons,
        List.map_append, ih]
      rfl

theorem aggPair_length_eq {ι : Type} (model : Model ι)
    (fn : Option (Model ι → List ι → List (List ℚ)))
    (dl_gal : List (List ι × List Int))
    (agg : Option (List (List ℚ) → List Int → List (List ℚ) × List Int))
    (hG : ∀ b ∈ dl_gal, (embedOf model fn b.1).length = b.2.length)
    (hA : ∀ f, agg = some f → ∀ e l, (f e l).1.length = (f e l).2.length) :
    (aggPair agg ((dl_gal.map (fun b => embedOf model fn b.1)).flatten)
      ((dl_gal.map Prod.snd).flatten)).1.length =
    (aggPair agg ((dl_gal.map (fun b => embedOf model fn b.1)).flatten)
      ((dl_gal.map Prod.snd).flatten)).2.length := by
  cases agg with
  | none =>
      simp only [aggPair, List.length_flatten, List.map_map]
      exact congrArg List.sum (List.map_congr_left (fun b hb => hG b hb))
  | some f => exact hA f rfl _ _

/-- C4: in every successful run, `get_score_matrix` first consumes all
gallery batches in arrival order, then applies the aggregation function
exactly once (if one is supplied, and before any query batch is touched),
then consumes the query batches one at a time; the returned score matrix
is the concatenation, in arrival order, of each query batch's matrix
product with the transpose of the (possibly aggregated) gallery
embeddings. -/
theorem get_score_matrix_processing_order {ι : Type} (model : Model ι)
    (dl_gal dl_quer : List (List ι × List Int))
    (agg : Option (List (List ℚ) → List Int → List (List ℚ) × List Int))
    (fn : Option (Model ι → List ι → List (List ℚ)))
    (hT : model.training = false)
    (hG : ∀ b ∈ dl_gal, (embedOf model fn b.1).length = b.2.length) :
    (get_score_matrix model dl_gal dl_quer agg fn).2 =
      dl_gal.map (fun b => SMEvent.galBatch b) ++ aggEvents agg
        ++ dl_quer.map (fun b => SMEvent.querBatch b) ∧
    (get_score_matrix model dl_gal dl_quer agg fn).1 =
      Except.ok
        ((dl_quer.map (fun b => matmulT (embedOf model fn b.1)
            (aggPair agg ((dl_gal.map (fun b => embedOf model fn b.1)).flatten)
              ((dl_gal.map Prod.snd).flatten)).1)).flatten,
         (dl_quer.map Prod.snd).flatten,
         (aggPair agg ((dl_gal.map (fun b => embedOf model fn b.1)).flatten)
            ((dl_gal.map Prod.snd).flatten)).2) := by
  rw [gsm_ok model dl_gal dl_quer agg fn hT hG]
  exact ⟨rfl, rfl⟩

/-- A witness model for the score-matrix theorems: inference mode, each image
embedded as the row `[1, 2]`. -/
def mW : Model Unit := { training := false, forward := fun l => l.map (fun _ => [1, 2]) }

/-- A witness aggregation function: keep only the first gallery row/label. -/
def aggW (e : List (List ℚ)) (l : List Int) : List (List ℚ) × List Int :=
  (e.take 1, l.take 1)

theorem get_score_matrix_processing_order_witness :
    mW.training = false ∧
    (∀ b ∈ [([()], [(10 : Int)])], (embedOf mW none b.1).length = b.2.length) ∧
    (get_score_matrix mW [([()], [10])] [([(), ()], [7, 8])] (some aggW) none).2 =
      [SMEvent.galBatch ([()], [10]), SMEvent.aggApply,
       SMEvent.querBatch ([(), ()], [7, 8])] := by
  refine ⟨rfl, by simp [embedOf, mW], ?_⟩
  have h := (get_score_matrix_processing_order mW [([()], [10])] [([(), ()], [7, 8])]
    (some aggW) none rfl (by simp [embedOf, mW])).1
  simpa [aggEvents] using h

/-- C2: in every run of `get_score_matrix` that returns (model in inference
mode, every gallery batch passing its count check), provided the embedding
function yields one embedding per label on every query batch and the
aggregation function returns as many labels as embeddings, the score
matrix has one row per query label and one column per gallery label: row
`i` is the dot-product row of the `i`-th query embedding (whose label is
`query_labels[i]`) and the columns follow the gallery labels. -/
theorem get_score_matrix_shape_postcondition {ι : Type} (model : Model ι)
    (dl_gal dl_quer : List (List ι × List Int))
    (agg : Option (List (List ℚ) → List Int → List (List ℚ) × List Int))
    (fn : Option (Model ι → List ι → List (List ℚ)))
    (scores : List (List ℚ)) (ql gl : List Int)
    (hT : model.training = false)
    (hG : ∀ b ∈ dl_gal, (embedOf model fn b.1).length = b.2.length)
    (hQ : ∀ b ∈ dl_quer, (embedOf model fn b.1).length = b.2.length)
    (hA : ∀ f, agg = some f → ∀ e l, (f e l).1.length = (f e l).2.length)
    (hRes : (get_score_matrix model dl_gal dl_quer agg fn).1 =
      Except.ok (scores, ql, gl)) :
    scores.length = ql.length ∧
    (∀ row ∈ scores, row.length = gl.length) ∧
    scores = ((dl_quer.map (fun b => embedOf model fn b.1)).flatten).map
        (fun q => (aggPair agg ((dl_gal.map (fun b => embedOf model fn b.1)).flatten)
          ((dl_gal.map Prod.snd).flatten)).1.map (fun g => dotProd q g)) ∧
    ql = (dl_quer.map Prod.snd).flatten ∧
    gl = (aggPair agg ((dl_gal.map (fun b => embedOf model fn b.1)).flatten)
        ((dl_gal.map Prod.snd).flatten)).2 := by
  rw [gsm_ok model dl_gal dl_quer agg fn hT hG] at hRes
  simp only [Except.ok.injEq, Prod.mk.injEq] at hRes
  obtain ⟨hs, hq, hg⟩ := hRes
  subst hs hq hg
  refine ⟨?_, ?_, flatten_matmulT model fn _ dl_quer, rfl, rfl⟩
  · simp only [List.length_flatten, List.map_map]
    refine congrArg List.sum (List.map_congr_left (fun b hb => ?_))
    simp [matmulT, hQ b hb]
  · intro row hrow
    rw [flatten_matmulT model fn _ dl_quer] at hrow
    obtain ⟨q, _, hq⟩ := List.mem_map.mp hrow
    rw [← hq]
    simpa using (aggPair_length_eq model fn dl_gal agg hG hA)

theorem get_score_matrix_shape_postcondition_witness :
    (get_score_matrix mW [([()], [10])] [([(), ()], [7, 8])] none none).1 =
      Except.ok ([[5], [5]], [7, 8], [10]) ∧
    ([[5], [5]] : List (List ℚ)).length = ([7, 8] : List Int).length ∧
    (∀ row ∈ ([[5], [5]] : List (List ℚ)), row.length = ([(10 : Int)] : List Int).length) := by
  have hRes : (get_score_matrix mW [([()], [10])] [([(), ()], [7, 8])] none none).1 =
      Except.ok ([[5], [5]], [7, 8], [10]) := by
    rw [gsm_ok mW [([()], [10])] [([(), ()], [7, 8])] none none rfl (by simp [embedOf, mW])]
    norm_num [matmulT, embedOf, mW, aggPair, dotProd, List.replicate_succ]
  have h := get_score_matrix_shape_postcondition mW [([()], [10])] [([(), ()], [7, 8])]
    none none [[5], [5]] [7, 8] [10] rfl (by simp [embedOf, mW]) (by simp [embedOf, mW])
    (by intro f hf; cases hf) hRes
  exact ⟨hRes, h.1, h.2.1⟩

/-- C8: `get_score_matrix` checks the model's training flag before touching
any batch: if the model is training it fails with `InvalidModelState`
having consumed nothing (empty event trace), and if the model is in
inference mode this failure is unreachable. -/
theorem invalid_model_state_checked_first {ι : Type} (model : Model ι)
    (dl_gal dl_quer : List (List ι × List Int))
    (agg : Option (List (List ℚ) → List Int → List (List ℚ) × List Int))
    (fn : Option (Model ι → List ι → List (List ℚ))) :
    (model.training = true →
      get_score_matrix model dl_gal dl_quer agg fn =
        (Except.error SMError.invalidModelState, [])) ∧
    (model.training = false →
      (get_score_matrix model dl_gal dl_quer agg fn).1 ≠
        Except.error SMError.invalidModelState) := by
  constructor
  · intro h
    simp [get_score_matrix, h]
  · intro h hcontra
    unfold get_score_matrix at hcontra
    rw [if_neg (by simp [h])] at hcontra
    cases hgl : galleryLoop model fn dl_gal with
    | mk r evs =>
      cases r with
      | error e =>
          have he : e = SMError.shapeMismatch :=
            ((galleryLoop_error_iff model fn e dl_gal).mp (by rw [hgl])).1
          rw [hgl, he] at hcontra
          simp at hcontra
      | ok p =>
          obtain ⟨es, ls⟩ := p
          rw [hgl] at hcontra
          simp at hcontra

theorem invalid_model_state_checked_first_witness :
    ({ training := true, forward := fun l => l.map (fun _ => [1, 2]) } : Model Unit).training
      = true ∧
    get_score_matrix ({ training := true, forward := fun l => l.map (fun _ => [1, 2]) } :
        Model Unit) [([()], [10])] [([(), ()], [7, 8])] none none =
      (Except.error SMError.invalidModelState, []) :=
  ⟨rfl, (invalid_model_state_checked_first
    ({ training := true, forward := fun l => l.map (fun _ => [1, 2]) } : Model Unit)
    [([()], [10])] [([(), ()], [7, 8])] none none).1 rfl⟩

/-- C3 (amended): `get_score_matrix` fails with `ShapeMismatch` exactly when
the model is in inference mode and some gallery batch yields a label count
that differs from its embedding count; the check runs on every gallery
batch, and query batches are never checked. -/
theorem shape_mismatch_iff_gallery_batch_mismatch {ι : Type} (model : Model ι)
    (dl_gal dl_quer : List (List ι × List Int))
    (agg : Option (List (List ℚ) → List Int → List (List ℚ) × List Int))
    (fn : Option (Model ι → List ι → List (List ℚ))) :
    (get_score_matrix model dl_gal dl_quer agg fn).1 = Except.error SMError.shapeMismatch ↔
      (model.training = false ∧
        ∃ b ∈ dl_gal, (embedOf model fn b.1).length ≠ b.2.length) := by
  by_cases hT : model.training = true
  · simp [get_score_matrix, hT]
  · have hT' : model.training = false := by simpa using hT
    unfold get_score_matrix
    rw [if_neg (by simp [hT'])]
    cases hgl : galleryLoop model fn dl_gal with
    | mk r evs =>
      cases r with
      | error e =>
          have he := (galleryLoop_error_iff model fn e dl_gal).mp (by rw [hgl])
          simp [hgl, he.1, he.2, hT']
      | ok p =>
          obtain ⟨es, ls⟩ := p
          simp only [hgl, hT', true_and]
          constructor
          · intro h
            simp at h
          · rintro ⟨b, hb, hmis⟩
            have := (galleryLoop_error_iff model fn SMError.shapeMismatch dl_gal).mpr
              ⟨rfl, b, hb, hmis⟩
            rw [hgl] at this
            simp at this

/-- A model whose embedding function keeps only the first row of a batch:
a one-image batch embeds correctly, while a two-image batch yields a single
embedding and so disagrees with its label count. -/
def mTrunc : Model Unit :=
  { training := false, forward := fun l => (l.map (fun _ => [1])).take 1 }

/-- C3 (counterexample): a run whose single gallery batch passes its count
check but whose query batch yields one embedding for two labels returns
normally — a `1 × 1` score matrix next to two query labels, with no
`ShapeMismatch` — so the count invariant is not checked on query
batches. -/
theorem query_batch_mismatch_not_checked :
    (get_score_matrix mTrunc [([()], [10])] [([(), ()], [7, 8])] none none).1 =
      Except.ok ([[1]], [7, 8], [10]) ∧
    (embedOf mTrunc none [()]).length = ([(10 : Int)] : List Int).length ∧
    (embedOf mTrunc none [(), ()]).length ≠ ([7, 8] : List Int).length := by
  refine ⟨?_, by simp [embedOf, mTrunc], by simp [embedOf, mTrunc]⟩
  rw [gsm_ok mTrunc [([()], [10])] [([(), ()], [7, 8])] none none rfl
    (by simp [embedOf, mTrunc])]
  norm_num [matmulT, embedOf, mTrunc, aggPair, dotProd, List.replicate_succ]

/-- C1: for every valid fold configuration and every input, the train/
validation split returned by `label_based_k_fold_trainval_split` is
label-disjoint, and the union of the two label sets is the label set of
the full input. -/
theorem label_based_split_label_disjoint (shuffle : Nat → List L → List L)
    (df : List (Record L A)) (num_folds val_fold seed : Nat)
    (tr va : List (Record L A))
    (h2 : 2 ≤ num_folds) (hv : val_fold < num_folds)
    (hres : label_based_k_fold_trainval_split shuffle df num_folds val_fold seed =
      some (tr, va)) :
    (∀ l, ¬(l ∈ labelsOf tr ∧ l ∈ labelsOf va)) ∧
    (∀ l, l ∈ labelsOf df ↔ (l ∈ labelsOf tr ∨ l ∈ labelsOf va)) := by
  unfold label_based_k_fold_trainval_split at hres
  by_cases hcond : num_folds < 2 ∨ num_folds ≤ val_fold ∨
      (pdUnique (df.map Prod.fst)).length < num_folds
  · rw [if_pos hcond] at hres
    cases hres
  · rw [if_neg hcond] at hres
    simp only [Option.some.injEq, Prod.mk.injEq] at hres
    obtain ⟨htr, hva⟩ := hres
    subst htr hva
    constructor
    · rintro l ⟨hlt, hlv⟩
      obtain ⟨r, hr, hrl⟩ := List.mem_map.mp hlt
      obtain ⟨r2, hr2, hr2l⟩ := List.mem_map.mp hlv
      have h1 := (List.mem_filter.mp hr).2
      have h2' := (List.mem_filter.mp hr2).2
      rw [hrl] at h1
      rw [hr2l] at h2'
      simp only [decide_eq_true_eq] at h1 h2'
      exact h1 h2'
    · intro l
      constructor
      · intro hl
        obtain ⟨r, hr, hrl⟩ := List.mem_map.mp hl
        by_cases hmem : r.1 ∈ foldSlice (shuffle seed (pdUnique (df.map Prod.fst)))
            num_folds val_fold
        · exact Or.inr (List.mem_map.mpr ⟨r, List.mem_filter.mpr ⟨hr, by simpa using hmem⟩, hrl⟩)
        · exact Or.inl (List.mem_map.mpr ⟨r, List.mem_filter.mpr ⟨hr, by simpa using hmem⟩, hrl⟩)
      · rintro (hl | hl) <;>
        · obtain ⟨r, hr, hrl⟩ := List.mem_map.mp hl
          exact List.mem_map.mpr ⟨r, (List.mem_filter.mp hr).1, hrl⟩

theorem label_based_split_label_disjoint_witness :
    2 ≤ 2 ∧ 0 < 2 ∧
    label_based_k_fold_trainval_split (fun _ l => l)
        [((0 : Int), (0 : Nat)), ((1 : Int), (1 : Nat))] 2 0 0 =
      some ([((1 : Int), (1 : Nat))], [((0 : Int), (0 : Nat))]) ∧
    ¬((0 : Int) ∈ labelsOf [((1 : Int), (1 : Nat))] ∧
      (0 : Int) ∈ labelsOf [((0 : Int), (0 : Nat))]) :=
  ⟨by decide, by decide, by decide,
    (label_based_split_label_disjoint (fun _ l => l)
      [((0 : Int), (0 : Nat)), ((1 : Int), (1 : Nat))] 2 0 0
      [((1 : Int), (1 : Nat))] [((0 : Int), (0 : Nat))]
      (by decide) (by decide) (by decide)).1 0⟩

theorem mem_pdUniqueAux (x : L) :
    ∀ (l seen : List L), x ∈ pdUniqueAux seen l ↔ (x ∈ l ∧ x ∉ seen)
  | [], seen => by simp [pdUniqueAux]
  | a :: l, seen => by
      by_cases h : a ∈ seen
      · have ih := mem_pdUniqueAux x l seen
        rw [pdUniqueAux, if_pos h, ih]
        constructor
        · rintro ⟨hx, hns⟩
          exact ⟨List.mem_cons_of_mem a hx, hns⟩
        · rintro ⟨hx, hns⟩
          rcases List.mem_cons.mp hx with hxa | hxl
          · exact absurd (hxa ▸ h) hns
          · exact ⟨hxl, hns⟩
      · have ih := mem_pdUniqueAux x l (a :: seen)
        rw [pdUniqueAux, if_neg h, List.mem_cons, ih]
        by_cases hxa : x = a
        · subst hxa
          simp [h]
        · simp only [hxa, false_or, List.mem_cons]

theorem mem_pdUnique (x : L) (l : List L) : x ∈ pdUnique l ↔ x ∈ l := by
  simp [pdUnique, mem_pdUniqueAux]

theorem nodup_pdUniqueAux : ∀ (l seen : List L), (pdUniqueAux seen l).Nodup
  | [], _ => List.nodup_nil
  | a :: l, seen => by
      by_cases h : a ∈ seen
      · rw [pdUniqueAux, if_pos h]
        exact nodup_pdUniqueAux l seen
      · rw [pdUniqueAux, if_neg h]
        refine List.nodup_cons.mpr ⟨fun hmem => ?_, nodup_pdUniqueAux l (a :: seen)⟩
        exact ((mem_pdUniqueAux a l (a :: seen)).mp hmem).2 (List.mem_cons_self a seen)

theorem nodup_pdUnique (l : List L) : (pdUnique l).Nodup := nodup_pdUniqueAux l []

theorem enumerateFrom_map_fst : ∀ (l : List L) (i : Nat),
    (enumerateFrom i l).map Prod.fst = l
  | [], _ => rfl
  | x :: l, i => by
      simp [enumerateFrom, enumerateFrom_map_fst l (i + 1)]

theorem enumerateFrom_map_snd : ∀ (l : List L) (i : Nat),
    (enumerateFrom i l).map Prod.snd = List.range' i l.length
  | [], _ => rfl
  | x :: l, i => by
      simp [enumerateFrom, enumerateFrom_map_snd l (i + 1), List.range'_succ]

theorem label_to_int_of_map_fst (ls : List L) :
    (label_to_int_of ls).map Prod.fst = pdUnique ls :=
  enumerateFrom_map_fst (pdUnique ls) 0

theorem label_to_int_of_map_snd (ls : List L) :
    (label_to_int_of ls).map Prod.snd = List.range (label_to_int_of ls).length := by
  have hlen : (label_to_int_of ls).length = (pdUnique ls).length := by
    have := congrArg List.length (label_to_int_of_map_fst ls)
    simpa using this
  rw [hlen, List.range_eq_range']
  exact enumerateFrom_map_snd (pdUnique ls) 0

/-- C9: every result of `get_train_val_datasets` builds the gallery and the
query dataset with one and the same `label_to_int`, which enumerates the
distinct validation labels with dense integers `[0, n)`, while the train
dataset carries an independent map enumerating only the distinct train
labels. -/
theorem label_to_int_maps_construction (kSh : Nat → List L → List L)
    (refSh : Nat → List (Record L A) → List (Record L A))
    (df : List (Record L A)) (num_folds val_fold k_fold_seed n_refs rand_ref_seed : Nat)
    (tTr tVal : Option (A → A))
    (df_train df_val : List (Record L A))
    (t g q : DataFrameDataset L A)
    (hsplit : label_based_k_fold_trainval_split kSh df num_folds val_fold k_fold_seed =
      some (df_train, df_val))
    (hres : get_train_val_datasets kSh refSh df num_folds val_fold k_fold_seed
      n_refs rand_ref_seed tTr tVal = some (t, g, q)) :
    g.label_to_int = q.label_to_int ∧
    g.label_to_int = label_to_int_of (df_val.map Prod.fst) ∧
    (g.label_to_int.map Prod.fst).Nodup ∧
    (∀ l, l ∈ g.label_to_int.map Prod.fst ↔ l ∈ df_val.map Prod.fst) ∧
    g.label_to_int.map Prod.snd = List.range g.label_to_int.length ∧
    t.label_to_int = label_to_int_of (df_train.map Prod.fst) ∧
    (t.label_to_int.map Prod.fst).Nodup ∧
    (∀ l, l ∈ t.label_to_int.map Prod.fst ↔ l ∈ df_train.map Prod.fst) ∧
    t.label_to_int.map Prod.snd = List.range t.label_to_int.length := by
  unfold get_train_val_datasets at hres
  rw [hsplit] at hres
  simp only [Option.some.injEq, Prod.mk.injEq] at hres
  obtain ⟨ht, hg, hq⟩ := hres
  subst ht hg hq
  refine ⟨rfl, rfl, ?_, ?_, ?_, rfl, ?_, ?_, ?_⟩
  · rw [label_to_int_of_map_fst]
    exact nodup_pdUnique _
  · intro l
    rw [label_to_int_of_map_fst]
    exact mem_pdUnique l _
  · exact label_to_int_of_map_snd _
  · rw [label_to_int_of_map_fst]
    exact nodup_pdUnique _
  · intro l
    rw [label_to_int_of_map_fst]
    exact mem_pdUnique l _
  · exact label_to_int_of_map_snd _

theorem label_to_int_maps_construction_witness :
    label_based_k_fold_trainval_split (fun _ l => l)
        [((0 : Int), (0 : Nat)), ((1 : Int), (1 : Nat))] 2 0 0 =
      some ([((1 : Int), (1 : Nat))], [((0 : Int), (0 : Nat))]) ∧
    ([((0 : Int), 0)] : List (Int × Nat)) = [((0 : Int), 0)] :=
  ⟨by decide,
    (label_to_int_maps_construction (fun _ l => l) (fun _ l => l)
      [((0 : Int), (0 : Nat)), ((1 : Int), (1 : Nat))] 2 0 0 1 0 none none
      [((1 : Int), (1 : Nat))] [((0 : Int), (0 : Nat))]
      { df := [((1 : Int), (1 : Nat))], label_to_int := [((1 : Int), 0)], transform := none }
      { df := [((0 : Int), (0 : Nat))], label_to_int := [((0 : Int), 0)], transform := none }
      { df := [], label_to_int := [((0 : Int), 0)], transform := none }
      (by decide) (by rfl)).1⟩

theorem top_all_accuracy_eq (ql : List Int) (cl : List (List Int)) :
    top_all_accuracy ql cl =
      (((ql.zip cl).countP (fun p => decide (p.1 ∈ p.2))) : ℚ) / (ql.length : ℚ) := by
  simp [top_all_accuracy, List.countP_map]

theorem countP_zip_range : ∀ (ql : List Int) (cl : List (List Int)),
    cl.length = ql.length →
    ((ql.zip cl).countP (fun p => decide (p.1 ∈ p.2))) =
    ((List.range ql.length).countP (fun i => decide (ql.getD i 0 ∈ cl.getD i [])))
  | [], cl, _ => by simp
  | a :: ql, cl, h => by
      cases cl with
      | nil => simp at h
      | cons c cl =>
        have h' : cl.length = ql.length := by simpa using h
        rw [List.zip_cons_cons, List.countP_cons, List.length_cons,
          List.range_succ_eq_map, List.countP_cons, List.countP_map]
        have hc : List.countP
            ((fun i => decide ((a :: ql).getD i 0 ∈ (c :: cl).getD i [])) ∘ Nat.succ)
            (List.range ql.length)
            = List.countP (fun i => decide (ql.getD i 0 ∈ cl.getD i []))
              (List.range ql.length) := by
          refine List.countP_congr (fun i _ => ?_)
          simp [Function.comp, List.getD_cons_succ]
        rw [hc, countP_zip_range ql cl h']
        simp [List.getD_cons_zero]

/-- C5: `top_all_accuracy` returns, for non-empty aligned inputs, the
fraction of queries whose label appears among that query's candidate
labels — a value in `[0, 1]`; on the concrete scenario
`query_labels = [A, B]`, `candidates = [[A, C], [C, D]]` (with
`A, B, C, D = 0, 1, 2, 3`) it returns `0.5`. -/
theorem top_all_accuracy_fraction (ql : List Int) (cl : List (List Int))
    (hlen : cl.length = ql.length) (hne : ql ≠ []) :
    0 ≤ top_all_accuracy ql cl ∧ top_all_accuracy ql cl ≤ 1 ∧
    top_all_accuracy ql cl =
      (((List.range ql.length).countP
        (fun i => decide (ql.getD i 0 ∈ cl.getD i []))) : ℚ) / (ql.length : ℚ) ∧
    top_all_accuracy [0, 1] [[0, 2], [2, 3]] = 1 / 2 := by
  have hq0 : (0 : ℚ) < (ql.length : ℚ) := by
    have h1 : 0 < ql.length := List.length_pos.mpr hne
    exact_mod_cast h1
  refine ⟨?_, ?_, ?_, ?_⟩
  · rw [top_all_accuracy_eq]
    positivity
  · rw [top_all_accuracy_eq, div_le_one hq0]
    have h1 : ((ql.zip cl).countP (fun p => decide (p.1 ∈ p.2))) ≤ (ql.zip cl).length :=
      List.countP_le_length ..
    have h2 : (ql.zip cl).length = ql.length := by
      rw [List.length_zip, hlen, min_self]
    rw [h2] at h1
    exact_mod_cast h1
  · rw [top_all_accuracy_eq, countP_zip_range ql cl hlen]
  · norm_num [top_all_accuracy]

theorem top_all_accuracy_fraction_witness :
    ([[0, 2], [2, 3]] : List (List Int)).length = ([0, 1] : List Int).length ∧
    ([0, 1] : List Int) ≠ [] ∧
    top_all_accuracy [0, 1] [[0, 2], [2, 3]] = 1 / 2 :=
  ⟨by decide, by decide,
    (top_all_accuracy_fraction [0, 1] [[0, 2], [2, 3]] (by decide) (by decide)).2.2.2⟩

theorem countP_zip_congr : ∀ (ql : List Int) (c1 c2 : List (List Int)),
    List.Forall₂ (fun r1 r2 => ∀ x : Int, x ∈ r1 ↔ x ∈ r2) c1 c2 →
    (ql.zip c1).countP (fun p => decide (p.1 ∈ p.2)) =
    (ql.zip c2).countP (fun p => decide (p.1 ∈ p.2))
  | [], _, _, _ => by simp
  | _ :: _, _, _, List.Forall₂.nil => by simp
  | a :: ql, r1 :: c1, r2 :: c2, List.Forall₂.cons hr htail => by
      rw [List.zip_cons_cons, List.zip_cons_cons, List.countP_cons, List.countP_cons,
        countP_zip_congr ql c1 c2 htail]
      congr 1
      simp [hr a]

/-- C10: `top_all_accuracy` depends only on the membership of each query's
label in its candidate set: replacing every candidate row by one with the
same members (any permutation, with or without duplicates) leaves the
accuracy unchanged. -/
theorem top_all_accuracy_membership_invariant (ql : List Int) (c1 c2 : List (List Int))
    (h : List.Forall₂ (fun r1 r2 => ∀ x : Int, x ∈ r1 ↔ x ∈ r2) c1 c2) :
    top_all_accuracy ql c1 = top_all_accuracy ql c2 := by
  rw [top_all_accuracy_eq, top_all_accuracy_eq, countP_zip_congr ql c1 c2 h]

theorem top_all_accuracy_membership_invariant_witness :
    (∀ x : Int, x ∈ ([0, 1] : List Int) ↔ x ∈ ([1, 0, 0] : List Int)) ∧
    top_all_accuracy [0] [[0, 1]] = top_all_accuracy [0] [[1, 0, 0]] := by
  have hmem : ∀ x : Int, x ∈ ([0, 1] : List Int) ↔ x ∈ ([1, 0, 0] : List Int) := by
    intro x
    simp [or_comm]
  exact ⟨hmem, top_all_accuracy_membership_invariant [0] [[0, 1]] [[1, 0, 0]]
    (List.Forall₂.cons hmem List.Forall₂.nil)⟩

/-- C7 (amended): on an empty query set none of the accuracy operations
fails — each returns the `0/0` division, which is `NaN` in the
floating-point implementation and `0` in this rational model. -/
theorem accuracy_ops_return_division_on_empty (cl : List (List Int))
    (scores : List (List ℚ)) (gl : List Int) (k : Nat) :
    top_all_accuracy [] cl = 0 ∧ top_k_accuracy scores [] gl k = 0 ∧
    accuracy scores [] gl = 0 := by
  refine ⟨?_, ?_, ?_⟩ <;> simp [accuracy, top_k_accuracy, top_all_accuracy]

/-- C7 (counterexample): at the concrete empty query set the three accuracy
operations return a plain value — the rational rendering of the `0/0`
division — rather than failing with any error: the embedded functions are
total and no `EmptyInput` failure exists in the code. -/
theorem accuracy_ops_empty_returns_value :
    top_all_accuracy [] [] = 0 ∧
    top_k_accuracy ([] : List (List ℚ)) [] [0] 1 = 0 ∧
    accuracy ([] : List (List ℚ)) [] [0] = 0 := by
  refine ⟨?_, ?_, ?_⟩ <;> simp [accuracy, top_k_accuracy, top_all_accuracy]

theorem rankInsert_perm (le : Nat → Nat → Bool) (x : Nat) :
    ∀ l : List Nat, (rankInsert le x l).Perm (x :: l)
  | [] => List.Perm.refl _
  | y :: ys => by
      rw [rankInsert]
      by_cases h : le x y
      · rw [if_pos h]
      · rw [if_neg h]
        exact ((rankInsert_perm le x ys).cons y).trans (List.Perm.swap x y ys)

theorem rankSort_perm (le : Nat → Nat → Bool) : ∀ l : List Nat, (rankSort le l).Perm l
  | [] => List.Perm.refl _
  | x :: xs => (rankInsert_perm le x (rankSort le xs)).trans ((rankSort_perm le xs).cons x)

theorem sortedIdx_perm (row : List ℚ) :
    (sortedIdx row).Perm (List.range row.length) :=
  rankSort_perm (rankBefore row) (List.range row.length)

theorem top_k_accuracy_eq (scores : List (List ℚ)) (ql gl : List Int) (k : Nat) :
    top_k_accuracy scores ql gl k =
      (((ql.zip scores).countP
        (fun p => decide (p.1 ∈ (topKRow p.2 k).map (fun j => gl.getD j 0)))) : ℚ) /
      (ql.length : ℚ) := by
  have h1 : (top_k scores gl k).2 =
      scores.map (fun row => (topKRow row k).map (fun j => gl.getD j 0)) := rfl
  rw [top_k_accuracy, h1, top_all_accuracy_eq, List.zip_map_right, List.countP_map]
  rfl

theorem topKRow_subset (row : List ℚ) (k1 k2 : Nat) (h : k1 ≤ k2) :
    ∀ j ∈ topKRow row k1, j ∈ topKRow row k2 := by
  intro j hj
  have heq : topKRow row k1 = (topKRow row k2).take k1 := by
    unfold topKRow
    rw [List.take_take, min_eq_left h]
  rw [heq] at hj
  exact (List.take_sublist ..).subset hj

/-- C6 (amended): for every score matrix whose shape matches the label
vectors, `top_k_accuracy` is monotone non-decreasing in `k` on
`1 ≤ k ≤ num_gallery`, and at `k = num_gallery` it equals `1` whenever the
query set is non-empty and every query label occurs in the gallery
labels. -/
theorem top_k_accuracy_monotone_and_full (scores : List (List ℚ)) (ql gl : List Int) :
    (∀ k1 k2, 1 ≤ k1 → k1 ≤ k2 → k2 ≤ gl.length →
      top_k_accuracy scores ql gl k1 ≤ top_k_accuracy scores ql gl k2) ∧
    (ql ≠ [] → scores.length = ql.length →
      (∀ row ∈ scores, row.length = gl.length) → (∀ q ∈ ql, q ∈ gl) →
      top_k_accuracy scores ql gl gl.length = 1) := by
  constructor
  · intro k1 k2 _ h12 _
    rw [top_k_accuracy_eq, top_k_accuracy_eq]
    have hcount : ((ql.zip scores).countP
          (fun p => decide (p.1 ∈ (topKRow p.2 k1).map (fun j => gl.getD j 0)))) ≤
        ((ql.zip scores).countP
          (fun p => decide (p.1 ∈ (topKRow p.2 k2).map (fun j => gl.getD j 0)))) := by
      refine List.countP_mono_left (fun p _ hd => ?_)
      simp only [decide_eq_true_eq] at hd ⊢
      obtain ⟨j, hj, hjq⟩ := List.mem_map.mp hd
      exact List.mem_map.mpr ⟨j, topKRow_subset p.2 k1 k2 h12 j hj, hjq⟩
    by_cases hq : ql.length = 0
    · simp [hq]
    · have hpos : (0 : ℚ) < (ql.length : ℚ) := by
        exact_mod_cast Nat.pos_of_ne_zero hq
      exact (div_le_div_iff_of_pos_right hpos).mpr (by exact_mod_cast hcount)
  · intro hne hrows hw hcov
    rw [top_k_accuracy_eq]
    have hall : ∀ p ∈ ql.zip scores,
        (fun p : Int × List ℚ =>
          decide (p.1 ∈ (topKRow p.2 gl.length).map (fun j => gl.getD j 0))) p := by
      rintro ⟨q, row⟩ hp
      obtain ⟨hq, hrow⟩ := List.of_mem_zip hp
      have hrl : row.length = gl.length := hw row hrow
      obtain ⟨i, hi⟩ := List.mem_iff_get.mp (hcov q hq)
      have htake : topKRow row gl.length = sortedIdx row := by
        unfold topKRow
        refine List.take_of_length_le ?_
        rw [(sortedIdx_perm row).length_eq, List.length_range, hrl]
      have hidx : (i : Nat) ∈ topKRow row gl.length := by
        rw [htake, (sortedIdx_perm row).mem_iff, List.mem_range, hrl]
        exact i.isLt
      simp only [decide_eq_true_eq]
      refine List.mem_map.mpr ⟨i, hidx, ?_⟩
      rw [List.getD_eq_getElem gl 0 i.isLt]
      simpa [List.get_eq_getElem] using hi
    have hc : ((ql.zip scores).countP
        (fun p : Int × List ℚ =>
          decide (p.1 ∈ (topKRow p.2 gl.length).map (fun j => gl.getD j 0)))) =
        (ql.zip scores).length := List.countP_eq_length.mpr hall
    rw [hc, List.length_zip, hrows, min_self]
    refine div_self ?_
    exact Nat.cast_ne_zero.mpr (fun h0 => hne (List.length_eq_zero.mp h0))

theorem top_k_accuracy_monotone_and_full_witness :
    top_k_accuracy [[1, 0], [0, 1]] [5, 7] [5, 7] 1 ≤
      top_k_accuracy [[1, 0], [0, 1]] [5, 7] [5, 7] 2 ∧
    top_k_accuracy [[1, 0], [0, 1]] [5, 7] [5, 7] 2 = 1 := by
  have h := top_k_accuracy_monotone_and_full [[1, 0], [0, 1]] [5, 7] [5, 7]
  exact ⟨h.1 1 2 (by decide) (by decide) (by decide),
    h.2 (by decide) (by decide) (by simp) (by decide)⟩

/-- C6 (counterexample): with zero queries, gallery labels `[0]` and
`k = num_gallery = 1`, every query label is vacuously present in the
gallery yet `top_k_accuracy` returns `0`, not `1` — the full-`k` clause of
the claim fails on empty query vectors because of the `0/0` division. -/
theorem top_k_full_accuracy_empty_queries :
    (∀ q ∈ ([] : List Int), q ∈ ([0] : List Int)) ∧
    top_k_accuracy ([] : List (List ℚ)) [] [0] 1 ≠ 1 := by
  refine ⟨by simp, ?_⟩
  simp [top_k_accuracy, top_all_accuracy]

end Recognite
